import Mathlib

/-!
Verification development for the `healthcheck` probe utility.

The Go sources are embedded shallowly:

* IP addresses (`net.IP`) become `List Nat`, one entry per byte
  (every byte is below 256; theorems carry that bound where it matters);
* strings under construction (`[]byte` buffers) become `List Char`,
  converted to `String` at the same point the source converts;
* external effects (dialing, issuing an HTTP request, enumerating
  interface addresses, sleeping) become explicit inputs or outputs of the
  embedded functions, so the classification logic itself stays pure.
-/

set_option maxRecDepth 4000

/-! ## Data model: `HealthCheckError` (src/healthcheck.go) -/

/-- `HealthCheckError` from src/healthcheck.go: a failure code plus message.
A probe outcome (`error` in Go) is `Option HealthCheckError`:
`none` is success (`nil`), `some e` is failure. -/
structure HealthCheckError where
  code : Int
  message : String
  deriving Repr, DecidableEq

/-! ## Address formatter (src/healthcheck.go, `IPString` and helpers) -/

/-- The constant `hexDigit = "0123456789abcdef"` from src/healthcheck.go. -/
def hexDigit : List Char := "0123456789abcdef".toList

/-- Digit-peeling loop of `appendInt`: emits the decimal digits of a
positive value most-significant first (the Go loop fills a buffer from the
right with `val % 10` and loops on `val / 10`).  `fuel` mirrors the
20-byte buffer of the source, which holds any `uint` value. -/
def intDigitsAux : Nat → Nat → List Char
  | 0, _ => []
  | fuel + 1, val =>
    if val < 10 then [Char.ofNat (48 + val)]
    else intDigitsAux fuel (val / 10) ++ [Char.ofNat (48 + val % 10)]

/-- The decimal digits of `val`, most-significant first. -/
def intDigits (val : Nat) : List Char := intDigitsAux 20 val

/-- `appendInt` from src/healthcheck.go: append the decimal rendering of
`val` to the buffer `a`; the value `0` short-circuits to the single
character `0`. -/
def appendInt (a : List Char) (val : Nat) : List Char :=
  if val = 0 then a ++ ['0']
  else a ++ intDigits val

/-- `appendHex` from src/healthcheck.go: append the lowercase hex
rendering of `i` to `dst`.  The Go loop walks nibble positions `j = 7`
down to `0` and emits `hexDigit[(i >> 4j) & 0xf]` whenever `i >> 4j > 0`,
which skips exactly the leading zero nibbles; `i = 0` short-circuits to
the single character `0`. -/
def appendHex (dst : List Char) (i : Nat) : List Char :=
  if i = 0 then dst ++ ['0']
  else dst ++ (List.range 8).reverse.filterMap (fun j =>
    let v := i >>> (j * 4)
    if v > 0 then some (hexDigit.getD (v % 16) '0') else none)

/-- `hexString` from src/healthcheck.go: two lowercase hex digits
(`hexDigit[b >> 4]`, `hexDigit[b & 0xf]`) per byte, in order. -/
def hexString (b : List Nat) : String :=
  String.mk (b.flatMap fun tn => [hexDigit.getD (tn >>> 4) '0', hexDigit.getD (tn % 16) '0'])

/-- `convertIPv4` from src/healthcheck.go: the four octets rendered by
`appendInt`, joined with dots. -/
def convertIPv4 (ip : List Nat) : String :=
  let b : List Char := []
  let b := appendInt b (ip.getD 0 0)
  let b := b ++ ['.']
  let b := appendInt b (ip.getD 1 0)
  let b := b ++ ['.']
  let b := appendInt b (ip.getD 2 0)
  let b := b ++ ['.']
  let b := appendInt b (ip.getD 3 0)
  String.mk b

/-- The 16-bit group starting at byte index `i` of `ip`:
`(uint32(ip[i]) << 8) | uint32(ip[i+1])` in the Go source. -/
def group16 (ip : List Nat) (i : Nat) : Nat :=
  ip.getD i 0 * 256 + ip.getD (i + 1) 0

/-- The zero test of the inner scan in `convertIPv6`:
`ip[j] == 0 && ip[j+1] == 0` at byte index `j = 2 * g`. -/
def zeroGroup (ip : List Nat) (g : Nat) : Bool :=
  ip.getD (2 * g) 1 == 0 && ip.getD (2 * g + 1) 1 == 0

/-- Inner scan of `convertIPv6` (`for j < IPv6len && ip[j] == 0 && ip[j+1] == 0`):
the number of consecutive zero groups starting at group index `g`
(the Go `j` is the byte index `2 * (g + result)`). -/
def zeroRunLenAux (z : Nat → Bool) : Nat → Nat → Nat
  | 0, _ => 0
  | fuel + 1, g =>
    if g < 8 then
      if z g then zeroRunLenAux z fuel (g + 1) + 1 else 0
    else 0

/-- The number of consecutive zero groups starting at group index `g`,
where `z` is the per-group zero test (`zeroGroup ip` for an address; the
finder is kept parametric in it so that its behaviour can be analysed
per zero/nonzero pattern).  8 iterations always suffice: the index grows
each step and the scan stops at 8. -/
def zeroRunLen (z : Nat → Bool) (g : Nat) : Nat := zeroRunLenAux z 8 g

/-- Outer loop of `convertIPv6`, searching for the longest zero run.
`g` is the group index (byte index `i = 2 * g`); `e0`/`e1` are the byte
indices of the best run so far, `-1` when none.  A run of `l > 0` groups
starting at `g` replaces the best exactly when it is strictly longer
(`j - i > e1 - e0`), after which the scan resumes past it (`i = j` then
`i += 2`). -/
def findZeroRunAux (z : Nat → Bool) : Nat → Nat → Int → Int → Int × Int
  | 0, _, e0, e1 => (e0, e1)
  | fuel + 1, g, e0, e1 =>
    if g < 8 then
      let l := zeroRunLen z g
      if 0 < l ∧ (2 * l : Int) > e1 - e0 then
        findZeroRunAux z fuel (g + l + 1) (2 * g) (2 * (g + l))
      else
        findZeroRunAux z fuel (g + 1) e0 e1
    else (e0, e1)

/-- The zero-run search of `convertIPv6`, including the final
RFC 5952 guard: a best run of a single group (`e1 - e0 <= 2` bytes) is
discarded (`e0 = e1 = -1`).  8 iterations always suffice: the byte index
strictly grows each iteration. -/
def findZeroRun (z : Nat → Bool) : Int × Int :=
  let (e0, e1) := findZeroRunAux z 8 0 (-1) (-1)
  if e1 - e0 ≤ 2 then (-1, -1) else (e0, e1)

/-- Emission loop of `convertIPv6`, on group indices.  At group `g`
(byte index `i = 2 * g`): if `i == e0`, emit `::`, jump to `i = e1` and
stop if past the end, otherwise continue with the group at `e1`; else a
separating `:` when `i > 0`; then the group in hex.  `fuel` bounds the
iteration count (the Go loop advances `i` by at least 2 bytes per
iteration, so 8 steps always suffice; this is proved below). -/
def convertIPv6Aux (ip : List Nat) (e0 e1 : Int) : Nat → Nat → List Char
  | 0, _ => []
  | fuel + 1, g =>
    if g < 8 then
      if (2 * g : Int) = e0 then
        [':', ':'] ++
          (if (e1 : Int) ≥ 16 then []
           else
             appendHex [] (group16 ip e1.toNat) ++
               convertIPv6Aux ip e0 e1 fuel (e1.toNat / 2 + 1))
      else
        (if 0 < g then [':'] else []) ++ appendHex [] (group16 ip (2 * g)) ++
          convertIPv6Aux ip e0 e1 fuel (g + 1)
    else []

/-- `convertIPv6` from src/healthcheck.go: find the longest zero run
(the per-group zero test is `zeroGroup ip`, exactly the condition
`ip[j] == 0 && ip[j+1] == 0` of the source), then emit the groups with
`::` replacing the run. -/
def convertIPv6 (ip : List Nat) : String :=
  let (e0, e1) := findZeroRun (zeroGroup ip)
  String.mk (convertIPv6Aux ip e0 e1 8 0)

/-- `isZeros` from Go's `net` package (used by `To4`): all bytes zero. -/
def isZeros (bs : List Nat) : Bool := bs.all (· == 0)

/-- `IP.To4` from Go's `net` package, as used by `IPString`: a 4-byte
address is returned as is; a 16-byte address in IPv4-mapped form
(ten zero bytes then `0xff 0xff`) yields its last four bytes; anything
else yields `nil` (`none`). -/
def to4 (ip : List Nat) : Option (List Nat) :=
  if ip.length = 4 then some ip
  else if ip.length = 16 ∧ isZeros (ip.take 10) ∧ ip.getD 10 0 = 255 ∧ ip.getD 11 0 = 255 then
    some (ip.drop 12)
  else none

/-- `IPString` from src/healthcheck.go: `"<nil>"` for an empty address,
dotted decimal via `convertIPv4` when `To4` yields a 4-byte form,
a `?`-prefixed hex dump for other lengths, else `convertIPv6`. -/
def IPString (ip : List Nat) : String :=
  if ip.length = 0 then "<nil>"
  else
    match to4 ip with
    | some p4 => convertIPv4 p4
    | none => if ip.length ≠ 16 then "?" ++ hexString ip else convertIPv6 ip

example : IPString [192, 168, 0, 1] = "192.168.0.1" := by decide
example : IPString [] = "<nil>" := by decide
example : IPString [1, 2, 3] = "?010203" := by decide
example : IPString [0,0,0,0,0,0,0,0,0,0,255,255,10,0,0,1] = "10.0.0.1" := by decide
example : IPString [0x20,0x01,0x0d,0xb8,0,0,0,0,0,1,0,0,0,0,0,1] = "2001:db8::1:0:0:1" := by decide
example : IPString [0,0,0,0,0,0,0,0,0,0,0,0,0,0,0,0] = "::" := by decide
example : IPString [0,0,0,0,0,0,0,0,0,0,0,0,0,0,0,1] = "::1" := by decide
example : IPString [0x20,0x01,0,0,0,0,0,0,0,1,0,0,0,0,0,1] = "2001::1:0:0:1" := by decide
example : IPString [0xfe,0x80,0,0,0,0,0,0,0,0,0,0,0,0,0,1] = "fe80::1" := by decide
example : IPString [0,1,0,2,0,3,0,4,0,5,0,6,0,7,0,8] = "1:2:3:4:5:6:7:8" := by decide
example : IPString [0,1,0,0,0,3,0,4,0,5,0,6,0,7,0,8] = "1:0:3:4:5:6:7:8" := by decide

/-! ## Probe engine (src/healthcheck.go, `PortHealthCheck` / `HTTPHealthCheck`)

The dial and the HTTP round trip are host facilities; their outcomes are
inputs of the embedded functions.  A Go `error` coming back from them is
modelled by what the classification code observes of it: whether the
type assertion `err.(net.Error)` succeeds, what `Timeout()` returns, and
the `Error()` text. -/

/-- What `PortHealthCheck`/`HTTPHealthCheck` observe of a Go error. -/
structure GoNetError where
  /-- whether the assertion `err.(net.Error)` succeeds -/
  isNetError : Bool
  /-- the value of `err.Timeout()` (meaningful when `isNetError`) -/
  isTimeout : Bool
  /-- the text `err.Error()` -/
  detail : String
  deriving Repr, DecidableEq

/-- The externally visible resource actions a probe performs. -/
inductive ProbeEffect where
  /-- `conn.Close()` in `PortHealthCheck` -/
  | closeConn
  /-- `noopReadAll(resp.Body)` in `HTTPHealthCheck` -/
  | drainBody
  /-- `resp.Body.Close()` in `HTTPHealthCheck` -/
  | closeBody
  deriving Repr, DecidableEq

/-- `PortHealthCheck` from src/healthcheck.go, as a function of the
outcome of `net.DialTimeout` (`none` = dial succeeded).  Returns the
probe result together with the effect trace. -/
def PortHealthCheck (dial : Option GoNetError) : Option HealthCheckError × List ProbeEffect :=
  match dial with
  | none => (none, [.closeConn])
  | some e =>
    if e.isNetError && e.isTimeout then
      (some ⟨64, "timeout when making TCP connection: " ++ e.detail⟩, [])
    else
      (some ⟨4, "failure to make TCP connection: " ++ e.detail⟩, [])

/-- The part of a parsed `url.URL` the probe manipulates. -/
structure URL where
  host : List Char
  deriving Repr, DecidableEq

/-- The part of an `http.Response` the probe inspects. -/
structure HTTPResponse where
  statusCode : Nat
  deriving Repr, DecidableEq

/-- `strings.LastIndex(s, string(c))` for a one-character needle: the
byte index of the last occurrence of `c` in `s`, `-1` when absent. -/
def lastIndexC (s : List Char) (c : Char) : Int :=
  match s with
  | [] => -1
  | a :: rest =>
    let r := lastIndexC rest c
    if r ≥ 0 then r + 1 else if a == c then 0 else -1

/-- `strings.TrimSuffix(s, ":")`: drop a final `:` when present. -/
def trimSuffixColon (s : List Char) : List Char :=
  if s.getLast? == some ':' then s.dropLast else s

/-- The host fix-up of `HTTPHealthCheck`
(`if strings.LastIndex(u.Host, ":") > strings.LastIndex(u.Host, "]")
{ u.Host = strings.TrimSuffix(u.Host, ":") }`). -/
def fixHost (host : List Char) : List Char :=
  if lastIndexC host ':' > lastIndexC host ']' then trimSuffixColon host else host

/-- `HTTPHealthCheck` from src/healthcheck.go, as a function of the
outcome of `url.Parse` (`Except` error detail = parse failure) and of
the host HTTP facility `client.Do`, which consumes the fixed-up URL.
Returns the probe result together with the effect trace: on any
response the body is drained and closed, and only then is the status
code inspected. -/
def HTTPHealthCheck (parse : Except String URL)
    (doReq : URL → Except GoNetError HTTPResponse) :
    Option HealthCheckError × List ProbeEffect :=
  match parse with
  | .error detail => (some ⟨-1, "failed to parse URL: " ++ detail⟩, [])
  | .ok u0 =>
    let u : URL := { u0 with host := fixHost u0.host }
    match doReq u with
    | .ok resp =>
      if resp.statusCode = 200 then (none, [.drainBody, .closeBody])
      else
        (some ⟨6, "failure to get valid HTTP status code: " ++ Nat.repr resp.statusCode⟩,
          [.drainBody, .closeBody])
    | .error e =>
      if e.isNetError && e.isTimeout then
        (some ⟨65, "timeout when making HTTP request: " ++ e.detail⟩, [])
      else
        (some ⟨5, "failure to make HTTP request: " ++ e.detail⟩, [])

/-! ## Interface selector (src/healthcheck.go, `CheckInterfaces`) -/

/-- `IP.IsLoopback` from Go's `net` package: a 4-byte form starting with
byte 127, or the 16-byte `::1`. -/
def isLoopback (ip : List Nat) : Bool :=
  match to4 ip with
  | some p4 => p4.getD 0 0 == 127
  | none => ip == [0, 0, 0, 0, 0, 0, 0, 0, 0, 0, 0, 0, 0, 0, 0, 1]

/-- A `net.Addr` as `CheckInterfaces` sees it: either a `*net.IPNet`
(with its IP), or any other address implementation (for which the type
assertion fails). -/
inductive NetAddr where
  | ipnet (ip : List Nat)
  | other
  deriving Repr, DecidableEq

/-- A network interface, reduced to the outcome of `intf.Addrs()`:
`none` when the lookup fails, otherwise its address list. -/
def NetInterface := Option (List NetAddr)

/-- The inner loop of `CheckInterfaces`: the first address of the list
that is a `*net.IPNet`, not loopback, and IPv4-capable (`To4() != nil`). -/
def firstQualifying : List NetAddr → Option (List Nat)
  | [] => none
  | .ipnet ip :: rest =>
    if ¬ isLoopback ip ∧ to4 ip ≠ none then some ip else firstQualifying rest
  | .other :: rest => firstQualifying rest

/-- `CheckInterfaces` from src/healthcheck.go, instrumented with the
list of addresses handed to the probe.  The probe itself (either
`PortHealthCheck` or `HTTPHealthCheck` composed with its host
facilities, chosen by whether the URI is empty) is abstracted as
`probe`.  An interface whose `Addrs()` fails is skipped; the first
qualifying address is probed and its result returned at once; if none
qualifies the code 3 failure is produced. -/
def checkInterfacesT (probe : List Nat → Option HealthCheckError) :
    List NetInterface → Option HealthCheckError × List (List Nat)
  | [] => (some ⟨3, "failure to find suitable interface"⟩, [])
  | none :: rest => checkInterfacesT probe rest
  | some addrs :: rest =>
    match firstQualifying addrs with
    | some ip => (probe ip, [ip])
    | none => checkInterfacesT probe rest

/-- The probe result of `CheckInterfaces` (the instrumentation dropped). -/
def CheckInterfaces (probe : List Nat → Option HealthCheckError)
    (interfaces : List NetInterface) : Option HealthCheckError :=
  (checkInterfacesT probe interfaces).1

/-! ## Poll loop (src/unnamed/part_000, `realMain`) -/

/-- The outcome of a terminating run of the poll loop: the result
returned, the number of checks performed, and the number of
`time.Sleep(interval)` calls made. -/
structure RunOutcome where
  result : Option HealthCheckError
  attempts : Nat
  sleeps : Nat
  deriving Repr, DecidableEq

/-- The readiness loop of `realMain`: return success as soon as a check
passes, otherwise sleep one interval and retry.  `check k` is the
outcome of the (0-based) `k`-th check; `fuel` bounds the number of
iterations observed, `none` meaning the loop was still running. -/
def readinessLoop (check : Nat → Option HealthCheckError) : Nat → Nat → Option RunOutcome
  | 0, _ => none
  | fuel + 1, k =>
    match check k with
    | none => some ⟨none, k + 1, k⟩
    | some _ => readinessLoop check fuel (k + 1)

/-- The liveness loop of `realMain`: return the failure as soon as a
check fails, otherwise sleep one interval and retry. -/
def livenessLoop (check : Nat → Option HealthCheckError) : Nat → Nat → Option RunOutcome
  | 0, _ => none
  | fuel + 1, k =>
    match check k with
    | some e => some ⟨some e, k + 1, k⟩
    | none => livenessLoop check fuel (k + 1)

/-- The mode dispatch and loops of `realMain` (src/unnamed/part_000):
readiness mode when `readiness-interval > 0`, else liveness mode when
`liveness-interval > 0`, else a single check whose result is returned
verbatim. -/
def realMainRun (readinessInterval livenessInterval : Int)
    (check : Nat → Option HealthCheckError) (fuel : Nat) : Option RunOutcome :=
  if readinessInterval > 0 then readinessLoop check fuel 0
  else if livenessInterval > 0 then livenessLoop check fuel 0
  else some ⟨check 0, 1, 0⟩

/-! ## Specification-side definitions

These follow the wording of the specification (and of the claims under
scrutiny), to be compared against the embedded source functions. -/

/-- The IP carried by a `*net.IPNet` address, `none` for other address
implementations. -/
def ipOf : NetAddr → Option (List Nat)
  | .ipnet ip => some ip
  | .other => none

/-- The qualification test of the selector: non-loopback and
IPv4-capable. -/
def qualifiesIP (ip : List Nat) : Bool := !isLoopback ip && (to4 ip).isSome

/-- Modelled from the spec: the first non-loopback IPv4-capable
`*net.IPNet` address in interface-enumeration order, with interfaces
whose address lookup failed skipped. -/
def specFirstQualifying (interfaces : List NetInterface) : Option (List Nat) :=
  (((interfaces.filterMap id).flatten).filterMap ipOf).find? qualifiesIP

/-- The character for the hex digit `v` (`0`–`15`), lowercase. -/
def hexDigitChar (v : Nat) : Char := hexDigit.getD v '0'

/-- Modelled from the spec: the minimum-digit lowercase hexadecimal
rendering of a value, most-significant digit first (a zero value is the
single digit `0`).  The fuel of 8 digits covers every 32-bit value. -/
def specHexAux : Nat → Nat → List Char
  | 0, _ => []
  | fuel + 1, g =>
    if g < 16 then [hexDigitChar g]
    else specHexAux fuel (g / 16) ++ [hexDigitChar (g % 16)]

/-- Minimum-digit lowercase hex rendering of a 16-bit group value. -/
def specHexChars (g : Nat) : List Char := specHexAux 8 g

/-- Modelled from the spec: the two-hex-digit lowercase rendering of one
byte. -/
def specByteHex (b : Nat) : List Char := [hexDigitChar (b / 16), hexDigitChar (b % 16)]

/-- Modelled from the spec: the number of consecutive all-zero groups
starting at group index `s` (groups are indexed `0`–`7`), for the
per-group zero test `z`. -/
def specRunLen (z : Nat → Bool) (s : Nat) : Nat :=
  (((List.range (8 - s)).takeWhile fun k => z (s + k))).length

/-- Modelled from the spec: the maximal runs of consecutive all-zero
groups of length at least two, in order of their start index.  An entry
`(s, l)` is a run of `l ≥ 2` zero groups starting at group `s` that is
not preceded by a zero group. -/
def runsGE2 (z : Nat → Bool) : List (Nat × Nat) :=
  (List.range 8).filterMap fun s =>
    if z s = true ∧ (s = 0 ∨ z (s - 1) = false) ∧ 2 ≤ specRunLen z s then
      some (s, specRunLen z s)
    else none

/-- All boolean lists of length `n` (used to analyse the zero-run finder
over every zero/nonzero pattern of the 8 groups). -/
def allBools : Nat → List (List Bool)
  | 0 => [[]]
  | n + 1 => (allBools n).flatMap fun l => [false :: l, true :: l]

/-- Groups joined by `:` separators, at the character level. -/
def joinColon : List (List Char) → List Char
  | [] => []
  | a :: rest => a ++ rest.flatMap fun g => ':' :: g

/-- The eight 16-bit group values of a 16-byte address. -/
def ipGroups (ip : List Nat) : List Nat :=
  (List.range 8).map fun g => group16 ip (2 * g)

/-- One emission step of `appendHex`: the digit for nibble position `j`
of `i`, skipped (`none`) when everything from that position up is
zero. -/
def hexNib (i j : Nat) : Option Char :=
  let v := i >>> (j * 4)
  if v > 0 then some (hexDigit.getD (v % 16) '0') else none

/-- The digits emitted by the `appendHex` loop running over nibble
positions `k - 1` down to `0`. -/
def hexD (k i : Nat) : List Char := (List.range k).reverse.filterMap (hexNib i)

/-- The characters `appendHex` emits for the group at group index `g`. -/
def hexGroupChars (ip : List Nat) (g : Nat) : List Char :=
  appendHex [] (group16 ip (2 * g))

/-- Groups `g` to `7`, each preceded by a `:` separator. -/
def colonTail (ip : List Nat) (g : Nat) : List Char :=
  ((List.range (8 - g)).map fun k => ':' :: hexGroupChars ip (g + k)).flatten

/-- No two adjacent characters are both `:`. -/
def noDoubleColon (cs : List Char) : Prop :=
  List.Chain' (fun a b => ¬(a = ':' ∧ b = ':')) cs

/-! ## Claim C1: connection-probe outcome classification -/

/-- Claim C1: for the connection probe, a successful dial closes the
connection and returns success; a dial failure that is a `net.Error`
timeout returns code 64 with the `timeout when making TCP connection: `
message; any other dial failure returns code 4 with the
`failure to make TCP connection: ` message. -/
theorem C1_port_probe_classification (dial : Option GoNetError) :
    (dial = none → PortHealthCheck dial = (none, [.closeConn])) ∧
    (∀ e, dial = some e → e.isNetError = true → e.isTimeout = true →
      PortHealthCheck dial =
        (some ⟨64, "timeout when making TCP connection: " ++ e.detail⟩, [])) ∧
    (∀ e, dial = some e → ¬ (e.isNetError = true ∧ e.isTimeout = true) →
      PortHealthCheck dial =
        (some ⟨4, "failure to make TCP connection: " ++ e.detail⟩, [])) := by
  refine ⟨fun h => by subst h; rfl, fun e h hn ht => ?_, fun e h hne => ?_⟩
  · subst h
    simp [PortHealthCheck, hn, ht]
  · subst h
    have : (e.isNetError && e.isTimeout) = false := by
      rcases Bool.eq_false_or_eq_true e.isNetError with h1 | h1 <;>
        rcases Bool.eq_false_or_eq_true e.isTimeout with h2 | h2 <;>
        simp_all
    simp [PortHealthCheck, this]

theorem C1_port_probe_classification_witness :
    PortHealthCheck (some ⟨true, true, "t"⟩) =
      (some ⟨64, "timeout when making TCP connection: t"⟩, []) :=
  (C1_port_probe_classification (some ⟨true, true, "t"⟩)).2.1 ⟨true, true, "t"⟩ rfl rfl rfl

/-! ## Claim C2: HTTP-probe outcome classification -/

/-- Claim C2: for the HTTP probe, a parse failure yields code `-1`; given
a response, the body is drained and closed (in both status branches),
status 200 yields success and any other status yields code 6 with the
decimal status in the message; a transport error that is a `net.Error`
timeout yields code 65, any other transport error code 5. -/
theorem C2_http_probe_classification (parse : Except String URL)
    (doReq : URL → Except GoNetError HTTPResponse) :
    (∀ d, parse = .error d →
      HTTPHealthCheck parse doReq = (some ⟨-1, "failed to parse URL: " ++ d⟩, [])) ∧
    (∀ u, parse = .ok u →
      (∀ r, doReq ⟨fixHost u.host⟩ = .ok r →
        (HTTPHealthCheck parse doReq).2 = [.drainBody, .closeBody] ∧
        (r.statusCode = 200 → (HTTPHealthCheck parse doReq).1 = none) ∧
        (r.statusCode ≠ 200 → (HTTPHealthCheck parse doReq).1 =
          some ⟨6, "failure to get valid HTTP status code: " ++ Nat.repr r.statusCode⟩)) ∧
      (∀ e, doReq ⟨fixHost u.host⟩ = .error e →
        (e.isNetError = true → e.isTimeout = true →
          HTTPHealthCheck parse doReq =
            (some ⟨65, "timeout when making HTTP request: " ++ e.detail⟩, [])) ∧
        (¬ (e.isNetError = true ∧ e.isTimeout = true) →
          HTTPHealthCheck parse doReq =
            (some ⟨5, "failure to make HTTP request: " ++ e.detail⟩, [])))) := by
  constructor
  · intro d h
    subst h
    rfl
  · intro u h
    subst h
    constructor
    · intro r hr
      have hu : ({ u with host := fixHost u.host } : URL) = ⟨fixHost u.host⟩ := rfl
      constructor
      · by_cases hs : r.statusCode = 200 <;> simp [HTTPHealthCheck, hu, hr, hs]
      · constructor
        · intro hs
          simp [HTTPHealthCheck, hu, hr, hs]
        · intro hs
          simp [HTTPHealthCheck, hu, hr, hs]
    · intro e he
      have hu : ({ u with host := fixHost u.host } : URL) = ⟨fixHost u.host⟩ := rfl
      constructor
      · intro hn ht
        simp [HTTPHealthCheck, hu, he, hn, ht]
      · intro hne
        have : (e.isNetError && e.isTimeout) = false := by
          rcases Bool.eq_false_or_eq_true e.isNetError with h1 | h1 <;>
            rcases Bool.eq_false_or_eq_true e.isTimeout with h2 | h2 <;>
            simp_all
        simp [HTTPHealthCheck, hu, he, this]

theorem C2_http_probe_classification_witness :
    HTTPHealthCheck (.ok ⟨['h']⟩) (fun _ => .ok ⟨500⟩) =
      (some ⟨6, "failure to get valid HTTP status code: 500"⟩, [.drainBody, .closeBody]) := by
  have h := (C2_http_probe_classification (.ok ⟨['h']⟩) (fun _ => .ok ⟨500⟩)).2
    ⟨['h']⟩ rfl
  have h1 := (h.1 ⟨500⟩ (by rfl)).1
  have h2 := (h.1 ⟨500⟩ (by rfl)).2.2 (by decide)
  have : HTTPHealthCheck (.ok ⟨['h']⟩) (fun _ => .ok ⟨500⟩) =
      ((HTTPHealthCheck (.ok ⟨['h']⟩) (fun _ => .ok ⟨500⟩)).1,
       (HTTPHealthCheck (.ok ⟨['h']⟩) (fun _ => .ok ⟨500⟩)).2) := rfl
  rw [this, h1, h2]
  rfl

/-! ## Claim C8: host colon trimming -/

/-- Claim C8: the HTTP probe's host fix-up leaves a host not ending in
`:` unchanged, and strips the trailing `:` of a host that does end in
`:` exactly when the last `:` of the host appears after its last `]`. -/
theorem C8_host_colon_trim (h : List Char) :
    (h.getLast? ≠ some ':' → fixHost h = h) ∧
    (h.getLast? = some ':' →
      (fixHost h = h.dropLast ↔ lastIndexC h ':' > lastIndexC h ']')) := by
  constructor
  · intro hne
    unfold fixHost trimSuffixColon
    by_cases hc : lastIndexC h ':' > lastIndexC h ']'
    · simp [hc]
      intro habs
      exact absurd habs hne
    · simp [hc]
  · intro hend
    have hne : h ≠ [] := by
      intro habs
      rw [habs] at hend
      simp at hend
    constructor
    · intro heq
      by_contra hc
      unfold fixHost at heq
      simp [hc] at heq
      have hlen := congrArg List.length heq
      rw [List.length_dropLast] at hlen
      have : 0 < h.length := List.length_pos.mpr hne
      omega
    · intro hc
      unfold fixHost trimSuffixColon
      simp [hc, hend]

theorem C8_host_colon_trim_witness :
    fixHost ['[', ':', ':', '1', ']', ':'] = ['[', ':', ':', '1', ']'] ∧
    fixHost ['[', ':', ':', '1', ']'] = ['[', ':', ':', '1', ']'] := by
  constructor
  · exact ((C8_host_colon_trim ['[', ':', ':', '1', ']', ':']).2 (by decide)).mpr (by decide)
  · exact (C8_host_colon_trim ['[', ':', ':', '1', ']']).1 (by decide)

/-! ## Claim C3: interface selection probes the first qualifying address -/

theorem firstQualifying_eq_spec (addrs : List NetAddr) :
    firstQualifying addrs = (addrs.filterMap ipOf).find? qualifiesIP := by
  induction addrs with
  | nil => rfl
  | cons a rest ih =>
    cases a with
    | ipnet ip =>
      rw [show (NetAddr.ipnet ip :: rest).filterMap ipOf = ip :: rest.filterMap ipOf from rfl]
      by_cases h : ¬ isLoopback ip ∧ to4 ip ≠ none
      · have hq : qualifiesIP ip = true := by
          unfold qualifiesIP
          rcases h with ⟨h1, h2⟩
          simp [Bool.eq_false_iff.mpr h1, Option.isSome_iff_ne_none.mpr h2]
        rw [List.find?_cons_of_pos _ hq]
        simp [firstQualifying, h]
      · have hq : qualifiesIP ip = false := by
          unfold qualifiesIP
          by_contra habs
          rw [Bool.not_eq_false, Bool.and_eq_true] at habs
          rcases habs with ⟨h1, h2⟩
          exact h ⟨by simp_all, Option.isSome_iff_ne_none.mp h2⟩
        rw [List.find?_cons_of_neg _ (by simp [hq]),
          show firstQualifying (NetAddr.ipnet ip :: rest) =
            (if ¬ isLoopback ip ∧ to4 ip ≠ none then some ip else firstQualifying rest) from rfl,
          if_neg h]
        exact ih
    | other =>
      rw [show (NetAddr.other :: rest).filterMap ipOf = rest.filterMap ipOf from rfl]
      simp [firstQualifying, ih]

/-- Claim C3: `CheckInterfaces` probes exactly the first non-loopback
IPv4-capable address in enumeration order (skipping interfaces whose
address lookup failed) and returns that probe's result verbatim; when no
address qualifies it probes nothing and fails with code 3. -/
theorem C3_first_qualifying_address_probed
    (probe : List Nat → Option HealthCheckError) (interfaces : List NetInterface) :
    checkInterfacesT probe interfaces =
      match specFirstQualifying interfaces with
      | some ip => (probe ip, [ip])
      | none => (some ⟨3, "failure to find suitable interface"⟩, []) := by
  induction interfaces with
  | nil => rfl
  | cons intf rest ih =>
    cases intf with
    | none =>
      show checkInterfacesT probe rest = _
      rw [ih]
      rfl
    | some addrs =>
      show (match firstQualifying addrs with
            | some ip => (probe ip, [ip])
            | none => checkInterfacesT probe rest) = _
      unfold specFirstQualifying
      simp only [List.filterMap_cons, Option.some.injEq, id]
      rw [List.flatten_cons, List.filterMap_append, List.find?_append,
        ← firstQualifying_eq_spec]
      cases hfq : firstQualifying addrs with
      | some ip => rfl
      | none =>
        simp only [Option.none_or]
        rw [ih]
        rfl

/-! ## Claim C4: poll-loop semantics -/

theorem readinessLoop_success (check : Nat → Option HealthCheckError)
    (n : Nat) (hn : check n = none) (hfail : ∀ k < n, check k ≠ none) :
    ∀ fuel k, k + fuel > n → k ≤ n → (∀ j < k, check j ≠ none) →
      readinessLoop check fuel k = some ⟨none, n + 1, n⟩ := by
  intro fuel
  induction fuel with
  | zero => intro k hk; omega
  | succ f ih =>
    intro k hk hkn _
    by_cases hkeq : k = n
    · subst hkeq
      simp [readinessLoop, hn]
    · have hkn' : k < n := by omega
      cases hck : check k with
      | none => exact absurd hck (hfail k hkn')
      | some e =>
        rw [show readinessLoop check (f + 1) k =
              (match check k with
               | none => some ⟨none, k + 1, k⟩
               | some _ => readinessLoop check f (k + 1)) from rfl,
          hck]
        exact ih (k + 1) (by omega) (by omega) (fun j hj => hfail j (by omega))

theorem readinessLoop_allfail (check : Nat → Option HealthCheckError)
    (hfail : ∀ k, check k ≠ none) :
    ∀ fuel k, readinessLoop check fuel k = none := by
  intro fuel
  induction fuel with
  | zero => intro k; rfl
  | succ f ih =>
    intro k
    cases hck : check k with
    | none => exact absurd hck (hfail k)
    | some e =>
      rw [show readinessLoop check (f + 1) k =
            (match check k with
             | none => some ⟨none, k + 1, k⟩
             | some _ => readinessLoop check f (k + 1)) from rfl,
        hck]
      exact ih (k + 1)

theorem livenessLoop_failure (check : Nat → Option HealthCheckError)
    (n : Nat) (e : HealthCheckError) (hn : check n = some e)
    (hok : ∀ k < n, check k = none) :
    ∀ fuel k, k + fuel > n → k ≤ n →
      livenessLoop check fuel k = some ⟨some e, n + 1, n⟩ := by
  intro fuel
  induction fuel with
  | zero => intro k hk; omega
  | succ f ih =>
    intro k hk hkn
    by_cases hkeq : k = n
    · subst hkeq
      simp [livenessLoop, hn]
    · have hkn' : k < n := by omega
      rw [show livenessLoop check (f + 1) k =
            (match check k with
             | some e => some ⟨some e, k + 1, k⟩
             | none => livenessLoop check f (k + 1)) from rfl,
        hok k hkn']
      exact ih (k + 1) (by omega) (by omega)

theorem livenessLoop_allok (check : Nat → Option HealthCheckError)
    (hok : ∀ k, check k = none) :
    ∀ fuel k, livenessLoop check fuel k = none := by
  intro fuel
  induction fuel with
  | zero => intro k; rfl
  | succ f ih =>
    intro k
    rw [show livenessLoop check (f + 1) k =
          (match check k with
           | some e => some ⟨some e, k + 1, k⟩
           | none => livenessLoop check f (k + 1)) from rfl,
      hok k]
    exact ih (k + 1)

/-- Claim C4: in single-shot mode the loop performs exactly one check
and returns its result verbatim; in readiness mode it returns success at
the first successful attempt after one sleep per preceding failure, and
runs forever while every attempt fails; in liveness mode it returns the
first failure verbatim after one sleep per preceding success, and runs
forever while every attempt succeeds. -/
theorem C4_poll_loop_semantics (ri li : Int) (check : Nat → Option HealthCheckError) :
    (ri ≤ 0 → li ≤ 0 → ∀ fuel, realMainRun ri li check fuel = some ⟨check 0, 1, 0⟩) ∧
    (ri > 0 →
      (∀ n, check n = none → (∀ k < n, check k ≠ none) →
        ∀ fuel, fuel > n → realMainRun ri li check fuel = some ⟨none, n + 1, n⟩) ∧
      ((∀ k, check k ≠ none) → ∀ fuel, realMainRun ri li check fuel = none)) ∧
    (ri ≤ 0 → li > 0 →
      (∀ n e, check n = some e → (∀ k < n, check k = none) →
        ∀ fuel, fuel > n → realMainRun ri li check fuel = some ⟨some e, n + 1, n⟩) ∧
      ((∀ k, check k = none) → ∀ fuel, realMainRun ri li check fuel = none)) := by
  refine ⟨fun hri hli fuel => ?_, fun hri => ⟨fun n hn hfail fuel hfuel => ?_, fun hfail fuel => ?_⟩,
    fun hri hli => ⟨fun n e hn hok fuel hfuel => ?_, fun hok fuel => ?_⟩⟩
  · simp [realMainRun, not_lt.mpr hri, not_lt.mpr hli]
  · rw [realMainRun, if_pos hri]
    exact readinessLoop_success check n hn hfail fuel 0 (by omega) (by omega) (by omega)
  · rw [realMainRun, if_pos hri]
    exact readinessLoop_allfail check hfail fuel 0
  · rw [realMainRun, if_neg (not_lt.mpr hri), if_pos hli]
    exact livenessLoop_failure check n e hn hok fuel 0 (by omega) (by omega)
  · rw [realMainRun, if_neg (not_lt.mpr hri), if_pos hli]
    exact livenessLoop_allok check hok fuel 0

/-! ## Claim C7: IPv4 dotted-decimal rendering -/

set_option maxRecDepth 40000 in
theorem appendInt_eq_repr : ∀ n : Fin 256, String.mk (appendInt [] n.val) = Nat.repr n.val := by
  decide

theorem appendInt_pull (x : List Char) (v : Nat) : appendInt x v = x ++ appendInt [] v := by
  unfold appendInt
  by_cases h : v = 0 <;> simp [h]

theorem appendInt_lt256 (x : List Char) (n : Nat) (h : n < 256) :
    appendInt x n = x ++ (Nat.repr n).data := by
  have h1 := appendInt_eq_repr ⟨n, h⟩
  have h2 : appendInt [] n = (Nat.repr n).data := congrArg String.data h1
  rw [appendInt_pull, h2]

/-- Claim C7: a 4-byte address is formatted as the four octet values in
decimal (`Nat.repr` is the standard no-leading-zeros decimal rendering,
with 0 rendered as `0`), joined by dots. -/
theorem C7_ipv4_dotted_decimal (a b c d : Nat)
    (ha : a < 256) (hb : b < 256) (hc : c < 256) (hd : d < 256) :
    IPString [a, b, c, d] =
      Nat.repr a ++ "." ++ Nat.repr b ++ "." ++ Nat.repr c ++ "." ++ Nat.repr d := by
  have e : IPString [a, b, c, d] =
      String.mk (appendInt (appendInt (appendInt (appendInt [] a ++ ['.']) b ++ ['.']) c
        ++ ['.']) d) := rfl
  rw [e, appendInt_lt256 _ _ hd, appendInt_lt256 _ _ hc, appendInt_lt256 _ _ hb,
    appendInt_lt256 _ _ ha]
  apply String.ext
  simp

theorem C7_ipv4_dotted_decimal_witness : IPString [10, 0, 200, 1] = "10.0.200.1" := by
  rw [C7_ipv4_dotted_decimal 10 0 200 1 (by decide) (by decide) (by decide) (by decide)]
  rfl

/-! ## Claim C9: empty and malformed addresses -/

theorem flatMap_specByteHex_length (ip : List Nat) :
    (ip.flatMap specByteHex).length = 2 * ip.length := by
  induction ip with
  | nil => rfl
  | cons b rest ih =>
    simp only [List.flatMap_cons, List.length_append, ih, List.length_cons]
    simp [specByteHex]
    omega

/-- Claim C9: the empty address is formatted as `<nil>`; a non-empty
address whose length is neither 4 nor 16 is formatted as `?` followed by
the two-lowercase-hex-digit rendering of each byte in order, for a total
length of `1 + 2n`. -/
theorem C9_fallback_rendering (ip : List Nat) (hb : ∀ x ∈ ip, x < 256) :
    (IPString [] = "<nil>") ∧
    (ip ≠ [] → ip.length ≠ 4 → ip.length ≠ 16 →
      IPString ip = "?" ++ hexString ip ∧
      hexString ip = String.mk (ip.flatMap specByteHex) ∧
      (IPString ip).data.length = 1 + 2 * ip.length ∧
      ∀ ch ∈ (hexString ip).data, ch ∈ hexDigit) := by
  refine ⟨rfl, fun hne h4 h16 => ?_⟩
  have hlen0 : ip.length ≠ 0 := fun h => hne (List.length_eq_zero.mp h)
  have hto4 : to4 ip = none := by
    unfold to4
    rw [if_neg h4, if_neg]
    simp [h16]
  have hmain : IPString ip = "?" ++ hexString ip := by
    unfold IPString
    rw [if_neg hlen0, hto4]
    simp [h16]
  have hbyte : ∀ tn : Nat,
      [hexDigit.getD (tn >>> 4) '0', hexDigit.getD (tn % 16) '0'] = specByteHex tn := by
    intro tn
    unfold specByteHex hexDigitChar
    rw [Nat.shiftRight_eq_div_pow]
  have hhex : hexString ip = String.mk (ip.flatMap specByteHex) := by
    unfold hexString
    congr 1
    induction ip with
    | nil => rfl
    | cons b rest ih => simp only [List.flatMap_cons, ih, hbyte]
  refine ⟨hmain, hhex, ?_, ?_⟩
  · rw [hmain, hhex]
    show ("?".data ++ (ip.flatMap specByteHex)).length = 1 + 2 * ip.length
    rw [List.length_append, flatMap_specByteHex_length]
    rfl
  · intro ch hch
    rw [hhex] at hch
    have hch' : ch ∈ ip.flatMap specByteHex := hch
    rw [List.mem_flatMap] at hch'
    obtain ⟨b, hbmem, hchb⟩ := hch'
    have hblt := hb b hbmem
    have hmem : ∀ v : Nat, v < 16 → hexDigitChar v ∈ hexDigit := by
      intro v hv
      unfold hexDigitChar
      rw [List.getD_eq_getElem _ _ (show v < hexDigit.length from hv)]
      exact List.getElem_mem _
    have h1 : b / 16 < 16 := by omega
    have h2 : b % 16 < 16 := Nat.mod_lt _ (by omega)
    rcases (by simpa [specByteHex] using hchb : ch = hexDigitChar (b / 16) ∨
        ch = hexDigitChar (b % 16)) with h | h
    · exact h ▸ hmem _ h1
    · exact h ▸ hmem _ h2

theorem C9_fallback_rendering_witness :
    IPString [1, 171, 3] = "?01ab03" ∧ ("?01ab03".data).length = 1 + 2 * 3 := by
  have h := (C9_fallback_rendering [1, 171, 3] (by decide)).2
    (by decide) (by decide) (by decide)
  refine ⟨?_, by decide⟩
  rw [h.1]
  rfl

/-! ## Claim C10: IPv4-mapped 16-byte addresses take the dotted-decimal path -/

theorem intDigitsAux_chars (fuel : Nat) :
    ∀ v c, c ∈ intDigitsAux fuel v → ∃ d, d < 10 ∧ c = Char.ofNat (48 + d) := by
  induction fuel with
  | zero => intro v c hc; simp [intDigitsAux] at hc
  | succ f ih =>
    intro v c hc
    unfold intDigitsAux at hc
    by_cases hv : v < 10
    · rw [if_pos hv] at hc
      simp at hc
      exact ⟨v, hv, hc⟩
    · rw [if_neg hv] at hc
      rcases List.mem_append.mp hc with h | h
      · exact ih _ _ h
      · simp at h
        exact ⟨v % 10, Nat.mod_lt _ (by omega), h⟩

theorem appendInt_chars (x : List Char) (v : Nat) :
    ∀ c ∈ appendInt x v, c ∈ x ∨ ∃ d, d < 10 ∧ c = Char.ofNat (48 + d) := by
  intro c hc
  unfold appendInt at hc
  by_cases hv : v = 0
  · rw [if_pos hv] at hc
    rcases List.mem_append.mp hc with h | h
    · exact Or.inl h
    · simp at h
      exact Or.inr ⟨0, by omega, h⟩
  · rw [if_neg hv] at hc
    rcases List.mem_append.mp hc with h | h
    · exact Or.inl h
    · exact Or.inr (intDigitsAux_chars 20 v c h)

/-- Claim C10: a 16-byte IPv4-mapped address (ten zero bytes, `0xff
0xff`, then `a.b.c.d`) is formatted exactly as the 4-byte address
`[a, b, c, d]` — dotted decimal, containing no colon at all. -/
theorem C10_ipv4_mapped (a b c d : Nat)
    (ha : a < 256) (hb : b < 256) (hc : c < 256) (hd : d < 256) :
    IPString ([0, 0, 0, 0, 0, 0, 0, 0, 0, 0, 255, 255] ++ [a, b, c, d]) =
      IPString [a, b, c, d] ∧
    ∀ ch ∈ (IPString [a, b, c, d]).data, ch ≠ ':' := by
  constructor
  · rfl
  · intro ch hch
    have hch' : ch ∈ appendInt (appendInt (appendInt (appendInt [] a ++ ['.']) b ++ ['.']) c
        ++ ['.']) d := hch
    have hdig : ∀ e : Nat, e < 10 → Char.ofNat (48 + e) ≠ ':' := by decide
    have hdot : ('.' : Char) ≠ ':' := by decide
    rcases appendInt_chars _ _ ch hch' with h | ⟨e, he, hce⟩
    · rcases List.mem_append.mp h with h | h
      · rcases appendInt_chars _ _ ch h with h | ⟨e, he, hce⟩
        · rcases List.mem_append.mp h with h | h
          · rcases appendInt_chars _ _ ch h with h | ⟨e, he, hce⟩
            · rcases List.mem_append.mp h with h | h
              · rcases appendInt_chars _ _ ch h with h | ⟨e, he, hce⟩
                · simp at h
                · exact hce ▸ hdig e he
              · simp at h
                exact h ▸ hdot
            · exact hce ▸ hdig e he
          · simp at h
            exact h ▸ hdot
        · exact hce ▸ hdig e he
      · simp at h
        exact h ▸ hdot
    · exact hce ▸ hdig e he

theorem C10_ipv4_mapped_witness :
    IPString [0, 0, 0, 0, 0, 0, 0, 0, 0, 0, 255, 255, 172, 16, 254, 1] =
      IPString [172, 16, 254, 1] :=
  (C10_ipv4_mapped 172 16 254 1 (by decide) (by decide) (by decide) (by decide)).1

theorem C4_poll_loop_semantics_witness :
    realMainRun 1 (-1) (fun k => if k < 2 then some ⟨4, "x"⟩ else none) 5 =
      some ⟨none, 3, 2⟩ :=
  ((C4_poll_loop_semantics 1 (-1) (fun k => if k < 2 then some ⟨4, "x"⟩ else none)).2.1
    (by decide)).1 2 (by decide) (by decide) 5 (by decide)

/-! ## Characterisation of `appendHex`: minimum-digit lowercase hex -/

theorem hexD_zero (k : Nat) : hexD k 0 = [] := by
  unfold hexD
  rw [List.filterMap_eq_nil_iff]
  intro j _
  unfold hexNib
  simp

theorem specHexAux_succ (k g : Nat) :
    specHexAux (k + 1) g =
      if g < 16 then [hexDigitChar g]
      else specHexAux k (g / 16) ++ [hexDigitChar (g % 16)] := rfl

theorem hexNib_succ (i : Nat) : ∀ j, hexNib i (j + 1) = hexNib (i / 16) j := by
  intro j
  unfold hexNib
  have hp : 2 ^ ((j + 1) * 4) = 16 * 2 ^ (j * 4) := by
    rw [show (j + 1) * 4 = 4 + j * 4 from by ring, pow_add]
    norm_num
  rw [Nat.shiftRight_eq_div_pow, Nat.shiftRight_eq_div_pow, hp,
    show 16 * 2 ^ (j * 4) = 2 ^ (j * 4) * 16 from by ring,
    ← Nat.div_div_eq_div_mul, Nat.div_div_eq_div_mul,
    show 2 ^ (j * 4) * 16 = 16 * 2 ^ (j * 4) from by ring,
    ← Nat.div_div_eq_div_mul]

theorem hexD_step (k i : Nat) (hi : 0 < i) :
    hexD (k + 1) i = hexD k (i / 16) ++ [hexDigit.getD (i % 16) '0'] := by
  unfold hexD
  rw [List.range_succ_eq_map, List.reverse_cons, List.filterMap_append,
    ← List.map_reverse, List.filterMap_map]
  congr 1
  · apply List.filterMap_congr
    intro j _
    exact hexNib_succ i j
  · show List.filterMap (hexNib i) [0] = _
    have h0 : hexNib i 0 = some (hexDigit.getD (i % 16) '0') := by
      unfold hexNib
      simp only [Nat.zero_mul, Nat.shiftRight_zero]
      rw [if_pos hi]
    simp [List.filterMap, h0]

theorem hexD_spec : ∀ k i, i < 16 ^ k → 0 < i → hexD k i = specHexAux k i := by
  intro k
  induction k with
  | zero => intro i h1 h2; omega
  | succ f ih =>
    intro i h1 h2
    by_cases h16 : i < 16
    · have hdiv : i / 16 = 0 := Nat.div_eq_of_lt h16
      rw [hexD_step f i h2, hdiv, hexD_zero, List.nil_append,
        Nat.mod_eq_of_lt h16, specHexAux_succ, if_pos h16]
      rfl
    · have hdivpos : 0 < i / 16 := Nat.div_pos (by omega) (by omega)
      have hdivlt : i / 16 < 16 ^ f := by
        rw [Nat.div_lt_iff_lt_mul (by omega)]
        calc i < 16 ^ (f + 1) := h1
        _ = 16 ^ f * 16 := by rw [pow_succ]
      rw [hexD_step f i h2, ih (i / 16) hdivlt hdivpos, specHexAux_succ, if_neg h16]
      rfl

theorem appendHex_eq_specHex (i : Nat) (hi : i < 2 ^ 32) :
    appendHex [] i = specHexChars i := by
  by_cases h0 : i = 0
  · subst h0
    rfl
  · have : appendHex [] i = hexD 8 i := by
      unfold appendHex
      rw [if_neg h0]
      rfl
    rw [this, hexD_spec 8 i (by norm_num at hi ⊢; omega) (by omega)]
    rfl

theorem specHexAux_ne_nil (fuel g : Nat) : specHexAux (fuel + 1) g ≠ [] := by
  unfold specHexAux
  by_cases h : g < 16
  · simp [h]
  · simp [h]

theorem specHexChars_ne_nil (g : Nat) : specHexChars g ≠ [] := specHexAux_ne_nil 7 g

theorem specHexAux_chars : ∀ fuel g c, c ∈ specHexAux fuel g → c ∈ hexDigit := by
  intro fuel
  induction fuel with
  | zero => intro g c hc; simp [specHexAux] at hc
  | succ f ih =>
    intro g c hc
    have hmem : ∀ v : Nat, v < 16 → hexDigitChar v ∈ hexDigit := by
      intro v hv
      unfold hexDigitChar
      rw [List.getD_eq_getElem _ _ (show v < hexDigit.length from hv)]
      exact List.getElem_mem _
    unfold specHexAux at hc
    by_cases h : g < 16
    · rw [if_pos h] at hc
      simp at hc
      exact hc ▸ hmem g h
    · rw [if_neg h] at hc
      rcases List.mem_append.mp hc with hh | hh
      · exact ih _ _ hh
      · simp at hh
        exact hh ▸ hmem _ (Nat.mod_lt _ (by omega))

theorem specHexChars_no_colon (g : Nat) : ∀ c ∈ specHexChars g, c ≠ ':' := by
  intro c hc
  have := specHexAux_chars 8 g c hc
  intro habs
  subst habs
  revert this
  decide

/-! ## Characterisation of the zero-run finder

The finder reads the per-group zero test only at group indices below 8,
so its behaviour is a function of the 256 possible zero/nonzero
patterns; the following lemmas transfer properties decided over all
patterns to an arbitrary test function. -/

theorem zeroRunLenAux_congr {z z' : Nat → Bool} (h : ∀ j < 8, z j = z' j) :
    ∀ fuel g, zeroRunLenAux z fuel g = zeroRunLenAux z' fuel g := by
  intro fuel
  induction fuel with
  | zero => intro g; rfl
  | succ f ih =>
    intro g
    unfold zeroRunLenAux
    by_cases hg : g < 8
    · rw [if_pos hg, if_pos hg, h g hg, ih]
    · rw [if_neg hg, if_neg hg]

theorem findZeroRunAux_congr {z z' : Nat → Bool} (h : ∀ j < 8, z j = z' j) :
    ∀ fuel g e0 e1, findZeroRunAux z fuel g e0 e1 = findZeroRunAux z' fuel g e0 e1 := by
  intro fuel
  induction fuel with
  | zero => intro g e0 e1; rfl
  | succ f ih =>
    intro g e0 e1
    unfold findZeroRunAux
    by_cases hg : g < 8
    · rw [if_pos hg, if_pos hg]
      have hz : zeroRunLen z g = zeroRunLen z' g := zeroRunLenAux_congr h 8 g
      rw [hz]
      by_cases hc : 0 < zeroRunLen z' g ∧ (2 * (zeroRunLen z' g) : Int) > e1 - e0
      · rw [if_pos hc, if_pos hc, ih]
      · rw [if_neg hc, if_neg hc, ih]
    · rw [if_neg hg, if_neg hg]

theorem findZeroRun_congr {z z' : Nat → Bool} (h : ∀ j < 8, z j = z' j) :
    findZeroRun z = findZeroRun z' := by
  unfold findZeroRun
  rw [findZeroRunAux_congr h]

theorem takeWhile_congr_on {α : Type} {p q : α → Bool} :
    ∀ l : List α, (∀ a ∈ l, p a = q a) → l.takeWhile p = l.takeWhile q := by
  intro l
  induction l with
  | nil => intro _; rfl
  | cons a rest ih =>
    intro h
    rw [List.takeWhile_cons, List.takeWhile_cons, h a (by simp),
      ih fun x hx => h x (by simp [hx])]

theorem specRunLen_congr {z z' : Nat → Bool} (h : ∀ j < 8, z j = z' j) (s : Nat) :
    specRunLen z s = specRunLen z' s := by
  unfold specRunLen
  rw [takeWhile_congr_on _ fun k hk => h (s + k) (by
    have := List.mem_range.mp hk
    omega)]

theorem runsGE2_congr {z z' : Nat → Bool} (h : ∀ j < 8, z j = z' j) :
    runsGE2 z = runsGE2 z' := by
  unfold runsGE2
  apply List.filterMap_congr
  intro s hs
  have hs8 : s < 8 := List.mem_range.mp hs
  have hzs : z s = z' s := h s hs8
  have hpred : z (s - 1) = z' (s - 1) := h (s - 1) (by omega)
  rw [hzs, hpred, specRunLen_congr h s]

theorem allBools_complete : ∀ l : List Bool, l ∈ allBools l.length := by
  intro l
  induction l with
  | nil => simp [allBools]
  | cons b rest ih =>
    show b :: rest ∈ (allBools rest.length).flatMap fun t => [false :: t, true :: t]
    rw [List.mem_flatMap]
    refine ⟨rest, ih, ?_⟩
    cases b <;> simp

theorem getD_map_range (z : Nat → Bool) : ∀ j < 8, ((List.range 8).map z).getD j false = z j := by
  intro j hj
  have hlen : j < ((List.range 8).map z).length := by simp [hj]
  rw [List.getD_eq_getElem _ _ hlen, List.getElem_map, List.getElem_range]

set_option maxRecDepth 100000 in
theorem findZeroRun_unique_pattern :
    ∀ bs ∈ allBools 8, ∀ p ∈ runsGE2 (fun g => bs.getD g false),
      runsGE2 (fun g => bs.getD g false) = [p] →
      findZeroRun (fun g => bs.getD g false) =
        (((2 * p.1 : Nat) : Int), ((2 * (p.1 + p.2) : Nat) : Int)) := by
  decide

set_option maxRecDepth 100000 in
theorem findZeroRun_none_pattern :
    ∀ bs ∈ allBools 8, runsGE2 (fun g => bs.getD g false) = [] →
      findZeroRun (fun g => bs.getD g false) = (-1, -1) := by
  decide

theorem findZeroRun_of_single (z : Nat → Bool) (s l : Nat)
    (h : runsGE2 z = [(s, l)]) :
    findZeroRun z = (((2 * s : Nat) : Int), ((2 * (s + l) : Nat) : Int)) := by
  have hag : ∀ j < 8, ((List.range 8).map z).getD j false = z j := getD_map_range z
  have hbs : (List.range 8).map z ∈ allBools 8 := by
    have := allBools_complete ((List.range 8).map z)
    simpa using this
  have hruns : runsGE2 (fun g => ((List.range 8).map z).getD g false) = runsGE2 z :=
    runsGE2_congr hag
  have hmem : (s, l) ∈ runsGE2 (fun g => ((List.range 8).map z).getD g false) := by
    rw [hruns, h]
    simp
  have := findZeroRun_unique_pattern ((List.range 8).map z) hbs (s, l) hmem
    (by rw [hruns, h])
  rw [findZeroRun_congr hag] at this
  exact this

theorem findZeroRun_of_none (z : Nat → Bool) (h : runsGE2 z = []) :
    findZeroRun z = (-1, -1) := by
  have hag : ∀ j < 8, ((List.range 8).map z).getD j false = z j := getD_map_range z
  have hbs : (List.range 8).map z ∈ allBools 8 := by
    have := allBools_complete ((List.range 8).map z)
    simpa using this
  have := findZeroRun_none_pattern ((List.range 8).map z) hbs
    (by rw [runsGE2_congr hag, h])
  rw [findZeroRun_congr hag] at this
  exact this

theorem runsGE2_single_bounds (z : Nat → Bool) (s l : Nat)
    (h : runsGE2 z = [(s, l)]) : s < 8 ∧ 2 ≤ l ∧ s + l ≤ 8 := by
  have hmem : (s, l) ∈ runsGE2 z := by rw [h]; simp
  unfold runsGE2 at hmem
  rw [List.mem_filterMap] at hmem
  obtain ⟨a, ha, hval⟩ := hmem
  have ha8 : a < 8 := List.mem_range.mp ha
  by_cases hcond : z a = true ∧ (a = 0 ∨ z (a - 1) = false) ∧ 2 ≤ specRunLen z a
  · rw [if_pos hcond] at hval
    have hpair := Option.some.inj hval
    have h1 : a = s := congrArg Prod.fst hpair
    have h2 : specRunLen z a = l := congrArg Prod.snd hpair
    have hge2 : 2 ≤ specRunLen z a := hcond.2.2
    have hle : specRunLen z a ≤ 8 - a := by
      unfold specRunLen
      calc ((List.range (8 - a)).takeWhile fun k => z (a + k)).length
          ≤ (List.range (8 - a)).length := (List.takeWhile_sublist _).length_le
        _ = 8 - a := List.length_range _
    omega
  · rw [if_neg hcond] at hval
    exact absurd hval (by simp)

/-! ## Characterisation of the emission loop of `convertIPv6` -/

theorem convertIPv6Aux_succ (ip : List Nat) (e0 e1 : Int) (fuel g : Nat) :
    convertIPv6Aux ip e0 e1 (fuel + 1) g =
      if g < 8 then
        if (2 * g : Int) = e0 then
          [':', ':'] ++
            (if (e1 : Int) ≥ 16 then []
             else
               appendHex [] (group16 ip e1.toNat) ++
                 convertIPv6Aux ip e0 e1 fuel (e1.toNat / 2 + 1))
        else
          (if 0 < g then [':'] else []) ++ appendHex [] (group16 ip (2 * g)) ++
            convertIPv6Aux ip e0 e1 fuel (g + 1)
      else [] := rfl

theorem map_colon_shift (ip : List Nat) (m a : Nat) :
    List.map ((fun k => ':' :: hexGroupChars ip (a + k)) ∘ Nat.succ) (List.range m) =
      List.map (fun k => ':' :: hexGroupChars ip ((a + 1) + k)) (List.range m) :=
  List.map_congr_left fun k _ => by
    simp only [Function.comp]
    rw [show a + Nat.succ k = (a + 1) + k from by omega]

theorem convertIPv6Aux_tail (ip : List Nat) (e0 e1 : Int) :
    ∀ (fuel : Nat) (g : Nat), 1 ≤ g → 8 ≤ g + fuel → e0 < 2 * (g : Int) →
      convertIPv6Aux ip e0 e1 fuel g = colonTail ip g := by
  intro fuel
  induction fuel with
  | zero =>
    intro g h1 h8 he
    show ([] : List Char) = colonTail ip g
    unfold colonTail
    rw [show 8 - g = 0 from by omega]
    rfl
  | succ f ih =>
    intro g h1 h8 he
    by_cases hg8 : g < 8
    · rw [convertIPv6Aux_succ, if_pos hg8, if_neg (by omega), if_pos (by omega),
        ih (g + 1) (by omega) (by omega) (by push_cast at he ⊢ <;> omega)]
      unfold colonTail
      rw [show 8 - g = (8 - (g + 1)) + 1 from by omega, List.range_succ_eq_map,
        List.map_cons, List.flatten_cons, List.map_map, map_colon_shift]
      simp [hexGroupChars, List.append_assoc]
    · rw [convertIPv6Aux_succ, if_neg hg8]
      unfold colonTail
      rw [show 8 - g = 0 from by omega]
      rfl

theorem convertIPv6Aux_marked (ip : List Nat) (s l : Nat) (hs : s < 8) (hl : 2 ≤ l)
    (hsl : s + l ≤ 8) :
    ∀ fuel g, 1 ≤ g → g ≤ s → 8 ≤ fuel + g →
      convertIPv6Aux ip ((2 * s : Nat) : Int) ((2 * (s + l) : Nat) : Int) fuel g =
        ((List.range (s - g)).map fun k => ':' :: hexGroupChars ip (g + k)).flatten
          ++ ':' :: ':' ::
          (if 8 ≤ s + l then [] else hexGroupChars ip (s + l) ++ colonTail ip (s + l + 1)) := by
  intro fuel
  induction fuel with
  | zero =>
    intro g h1 hgs h8
    exact absurd h8 (by omega)
  | succ f ih =>
    intro g h1 hgs h8
    have hg8 : g < 8 := by omega
    by_cases hgeq : g = s
    · subst hgeq
      rw [convertIPv6Aux_succ, if_pos hg8, if_pos (by push_cast <;> omega),
        show g - g = 0 from by omega]
      by_cases h8l : 8 ≤ g + l
      · rw [if_pos (by push_cast <;> omega), if_pos h8l]
        rfl
      · rw [if_neg (by push_cast at h8l ⊢ <;> omega), if_neg h8l,
          show ((2 * (g + l) : Nat) : Int).toNat = 2 * (g + l) from by omega,
          show 2 * (g + l) / 2 = g + l from by omega,
          convertIPv6Aux_tail ip _ _ f (g + l + 1) (by omega) (by omega)
            (by push_cast <;> omega)]
        simp [hexGroupChars]
    · rw [convertIPv6Aux_succ, if_pos hg8, if_neg (by push_cast <;> omega), if_pos (by omega),
        ih (g + 1) (by omega) (by omega) (by omega)]
      rw [show s - g = (s - (g + 1)) + 1 from by omega, List.range_succ_eq_map,
        List.map_cons, List.flatten_cons, List.map_map, map_colon_shift]
      simp [hexGroupChars, List.append_assoc]

theorem joinColon_map_range (f : Nat → List Char) (m : Nat) :
    joinColon ((List.range (m + 1)).map f) =
      f 0 ++ ((List.range m).map fun k => ':' :: f (k + 1)).flatten := by
  rw [List.range_succ_eq_map, List.map_cons]
  show f 0 ++ (List.map f (List.map Nat.succ (List.range m))).flatMap (fun g => ':' :: g) = _
  rw [List.map_map, List.flatMap_def, List.map_map]
  have hfn : List.map ((fun g => ':' :: g) ∘ f ∘ Nat.succ) (List.range m) =
      List.map (fun k => ':' :: f (k + 1)) (List.range m) :=
    List.map_congr_left fun k _ => rfl
  rw [hfn]

theorem convertIPv6_chars_nomark (ip : List Nat)
    (h : findZeroRun (zeroGroup ip) = (-1, -1)) :
    (convertIPv6 ip).data = joinColon ((List.range 8).map fun g => hexGroupChars ip g) := by
  show (convertIPv6Aux ip (findZeroRun (zeroGroup ip)).1 (findZeroRun (zeroGroup ip)).2 8 0) = _
  rw [h]
  show convertIPv6Aux ip (-1) (-1) (7 + 1) 0 = _
  rw [convertIPv6Aux_succ, if_pos (by omega), if_neg (by norm_num), if_neg (by omega),
    convertIPv6Aux_tail ip _ _ 7 1 (by omega) (by omega) (by norm_num)]
  rw [joinColon_map_range (fun g => hexGroupChars ip g) 7]
  unfold colonTail
  rw [show (8 : Nat) - 1 = 7 from by omega]
  have hmc : List.map (fun k => ':' :: hexGroupChars ip (1 + k)) (List.range 7) =
      List.map (fun k => ':' :: hexGroupChars ip (k + 1)) (List.range 7) :=
    List.map_congr_left fun k _ => by rw [Nat.add_comm]
  rw [hmc]
  simp [hexGroupChars]

theorem convertIPv6_chars_marked (ip : List Nat) (s l : Nat) (hs : s < 8) (hl : 2 ≤ l)
    (hsl : s + l ≤ 8)
    (h : findZeroRun (zeroGroup ip) = (((2 * s : Nat) : Int), ((2 * (s + l) : Nat) : Int))) :
    (convertIPv6 ip).data =
      joinColon ((List.range s).map fun g => hexGroupChars ip g)
        ++ ':' :: ':' ::
      joinColon ((List.range (8 - (s + l))).map fun k => hexGroupChars ip (s + l + k)) := by
  have hafter : (if 8 ≤ s + l then ([] : List Char)
        else hexGroupChars ip (s + l) ++ colonTail ip (s + l + 1)) =
      joinColon ((List.range (8 - (s + l))).map fun k => hexGroupChars ip (s + l + k)) := by
    by_cases h8l : 8 ≤ s + l
    · rw [if_pos h8l, show 8 - (s + l) = 0 from by omega]
      rfl
    · rw [if_neg h8l, show 8 - (s + l) = (8 - (s + l) - 1) + 1 from by omega,
        joinColon_map_range (fun k => hexGroupChars ip (s + l + k)) (8 - (s + l) - 1)]
      unfold colonTail
      rw [show 8 - (s + l + 1) = 8 - (s + l) - 1 from by omega]
      have hmc : List.map (fun k => ':' :: hexGroupChars ip (s + l + (k + 1)))
            (List.range (8 - (s + l) - 1)) =
          List.map (fun k => ':' :: hexGroupChars ip ((s + l + 1) + k))
            (List.range (8 - (s + l) - 1)) :=
        List.map_congr_left fun k _ => by rw [show s + l + (k + 1) = (s + l + 1) + k from by omega]
      rw [hmc]
      simp
  show (convertIPv6Aux ip (findZeroRun (zeroGroup ip)).1 (findZeroRun (zeroGroup ip)).2 8 0) = _
  rw [h]
  by_cases hs0 : s = 0
  · subst hs0
    show convertIPv6Aux ip _ _ (7 + 1) 0 = _
    rw [convertIPv6Aux_succ, if_pos (by omega), if_pos (by push_cast <;> omega)]
    by_cases h8l : 8 ≤ 0 + l
    · rw [if_pos (by push_cast <;> omega), ← hafter, if_pos h8l]
      rfl
    · rw [if_neg (by push_cast at h8l ⊢ <;> omega),
        show ((2 * (0 + l) : Nat) : Int).toNat = 2 * (0 + l) from by omega,
        show 2 * (0 + l) / 2 = 0 + l from by omega,
        convertIPv6Aux_tail ip _ _ 7 (0 + l + 1) (by omega) (by omega) (by push_cast <;> omega),
        ← hafter, if_neg h8l]
      simp [hexGroupChars, joinColon]
  · show convertIPv6Aux ip _ _ (7 + 1) 0 = _
    rw [convertIPv6Aux_succ, if_pos (by omega), if_neg (by push_cast <;> omega), if_neg (by omega),
      convertIPv6Aux_marked ip s l hs hl hsl 7 1 (by omega) (by omega) (by omega),
      ← hafter]
    rw [show s = (s - 1) + 1 from by omega]
    rw [joinColon_map_range (fun g => hexGroupChars ip g) (s - 1)]
    have hmc : List.map (fun k => ':' :: hexGroupChars ip (1 + k)) (List.range (s - 1 + 1 - 1)) =
        List.map (fun k => ':' :: hexGroupChars ip (k + 1)) (List.range (s - 1)) := by
      rw [show s - 1 + 1 - 1 = s - 1 from by omega]
      exact List.map_congr_left fun k _ => by rw [Nat.add_comm]
    rw [hmc]
    simp [hexGroupChars, List.append_assoc]

/-! ## String-level assembly helpers -/

theorem intercalate_go_mk (L : List (List Char)) :
    ∀ acc : List Char,
      String.intercalate.go (String.mk acc) ":" (L.map String.mk) =
        String.mk (acc ++ (L.map fun g => ':' :: g).flatten) := by
  induction L with
  | nil =>
    intro acc
    show String.mk acc = _
    simp
  | cons a rest ih =>
    intro acc
    show String.intercalate.go (String.mk acc ++ ":" ++ String.mk a) ":" (rest.map String.mk) = _
    have hmk : String.mk acc ++ ":" ++ String.mk a = String.mk (acc ++ ':' :: a) := by
      apply String.ext
      simp
    rw [hmk, ih (acc ++ ':' :: a)]
    apply String.ext
    simp

theorem intercalate_colon_mk (L : List (List Char)) :
    String.intercalate ":" (L.map String.mk) = String.mk (joinColon L) := by
  cases L with
  | nil => rfl
  | cons a rest =>
    show String.intercalate.go (String.mk a) ":" (rest.map String.mk) = _
    rw [intercalate_go_mk rest a]
    apply String.ext
    show a ++ (rest.map fun g => ':' :: g).flatten = joinColon (a :: rest)
    rw [show joinColon (a :: rest) = a ++ rest.flatMap fun g => ':' :: g from rfl,
      List.flatMap_def]

theorem chain'_of_no_colon {g : List Char} (hg : ∀ c ∈ g, c ≠ ':') :
    List.Chain' (fun a b => ¬(a = ':' ∧ b = ':')) g := by
  induction g with
  | nil => simp
  | cons a t ih =>
    rw [List.chain'_cons']
    refine ⟨fun y _ => ?_, ih fun c hc => hg c (by simp [hc])⟩
    intro habs
    exact hg a (by simp) habs.1

theorem joinColon_chain' :
    ∀ L : List (List Char), (∀ g ∈ L, g ≠ [] ∧ ∀ c ∈ g, c ≠ ':') →
      List.Chain' (fun a b => ¬(a = ':' ∧ b = ':')) (joinColon L) := by
  intro L
  induction L with
  | nil => intro _; simp [joinColon]
  | cons a rest ih =>
    intro h
    cases rest with
    | nil =>
      show List.Chain' _ (a ++ ([] : List (List Char)).flatMap fun g => ':' :: g)
      simp only [List.flatMap_nil, List.append_nil]
      exact chain'_of_no_colon (h a (by simp)).2
    | cons b r =>
      have hstep : joinColon (a :: b :: r) = a ++ ':' :: joinColon (b :: r) := by
        show a ++ (b :: r).flatMap (fun g => ':' :: g) = _
        rw [List.flatMap_cons]
        rfl
      rw [hstep, List.chain'_append]
      refine ⟨chain'_of_no_colon (h a (by simp)).2, ?_, ?_⟩
      · rw [List.chain'_cons']
        refine ⟨fun y hy => ?_, ih fun g hg => h g (by simp at hg ⊢; tauto)⟩
        intro habs
        have hb := h b (by simp)
        have hyb : y ∈ b := by
          have hjoin : joinColon (b :: r) = b ++ r.flatMap fun g => ':' :: g := rfl
          rw [hjoin, List.head?_append] at hy
          cases hhb : b.head? with
          | none => exact absurd (List.head?_eq_none_iff.mp hhb) hb.1
          | some c =>
            rw [hhb] at hy
            have : y = c := by
              have := by simpa using hy
              exact this.symm
            exact this ▸ List.mem_of_mem_head? (hhb ▸ rfl)
        exact hb.2 y hyb habs.2
      · intro x hx y hy
        intro habs
        have hxa : x ∈ a := List.mem_of_getLast?_eq_some hx
        exact (h a (by simp)).2 x hxa habs.1

/-! ## Bounds and list plumbing for the formatter claims -/

theorem getD_lt256 (ip : List Nat) (hb : ∀ b ∈ ip, b < 256) (i : Nat) :
    ip.getD i 0 < 256 := by
  by_cases h : i < ip.length
  · rw [List.getD_eq_getElem _ _ h]
    exact hb _ (List.getElem_mem h)
  · rw [List.getD_eq_getElem?_getD, List.getElem?_eq_none (by omega)]
    simp

theorem group16_lt (ip : List Nat) (hb : ∀ b ∈ ip, b < 256) (i : Nat) :
    group16 ip i < 2 ^ 32 := by
  have h1 := getD_lt256 ip hb i
  have h2 := getD_lt256 ip hb (i + 1)
  unfold group16
  have h32 : (2 : Nat) ^ 32 = 4294967296 := by norm_num
  omega

theorem hexGroup_spec (ip : List Nat) (hb : ∀ b ∈ ip, b < 256) (g : Nat) :
    hexGroupChars ip g = specHexChars (group16 ip (2 * g)) :=
  appendHex_eq_specHex _ (group16_lt ip hb _)

theorem drop_range (t n : Nat) :
    (List.range n).drop t = (List.range (n - t)).map fun k => t + k := by
  apply List.ext_getElem
  · simp
  · intro i h1 h2
    have hti : t + i < (List.range n).length := by
      simp only [List.length_drop, List.length_range] at h1 ⊢
      omega
    rw [List.getElem_map, List.getElem_range, ← List.getElem_drop' (List.range n) hti]
    exact List.getElem_range _ _

theorem specRunLen_ge2 (z : Nat → Bool) (s : Nat) (h : 2 ≤ specRunLen z s) :
    z s = true ∧ z (s + 1) = true ∧ s + 2 ≤ 8 := by
  have hle : specRunLen z s ≤ 8 - s := by
    unfold specRunLen
    calc ((List.range (8 - s)).takeWhile fun k => z (s + k)).length
        ≤ (List.range (8 - s)).length := (List.takeWhile_sublist _).length_le
      _ = 8 - s := List.length_range _
  have hs8 : s + 2 ≤ 8 := by omega
  unfold specRunLen at h
  rw [show 8 - s = (8 - s - 2) + 1 + 1 from by omega, List.range_succ_eq_map,
    List.range_succ_eq_map, List.map_cons] at h
  by_cases h0 : z (s + 0)
  · by_cases h1 : z (s + 1)
    · exact ⟨by simpa using h0, h1, hs8⟩
    · rw [List.takeWhile_cons_of_pos (by simpa using h0),
        List.takeWhile_cons_of_neg (by simpa using h1)] at h
      simp at h
  · rw [List.takeWhile_cons_of_neg (by simpa using h0)] at h
    simp at h

theorem runsGE2_no_adjacent (z : Nat → Bool)
    (hno : ∀ g, g < 7 → ¬(z g = true ∧ z (g + 1) = true)) :
    runsGE2 z = [] := by
  unfold runsGE2
  rw [List.filterMap_eq_nil_iff]
  intro s _
  rw [if_neg]
  intro hcond
  obtain ⟨hz, _, hlen⟩ := hcond
  obtain ⟨hzs, hzs1, hs8⟩ := specRunLen_ge2 z s hlen
  exact hno s (by omega) ⟨hzs, hzs1⟩

theorem IPString_eq_convertIPv6 (ip : List Nat) (hlen : ip.length = 16)
    (h4 : to4 ip = none) : IPString ip = convertIPv6 ip := by
  have h1 : IPString ip = if ip.length ≠ 16 then "?" ++ hexString ip else convertIPv6 ip := by
    unfold IPString
    rw [if_neg (by rw [hlen]; norm_num), h4]
  rw [h1, if_neg (by rw [hlen]; norm_num)]

theorem ipGroups_map_hex (ip : List Nat) (hb : ∀ b ∈ ip, b < 256) :
    (List.range 8).map (fun g => hexGroupChars ip g) = (ipGroups ip).map specHexChars := by
  unfold ipGroups
  rw [List.map_map]
  exact List.map_congr_left fun g _ => hexGroup_spec ip hb g

/-! ## Claim C6: no zero run of length two or more means no compression -/

/-- Claim C6: a 16-byte address with no run of two or more consecutive
all-zero groups (and not on the 4-byte path) is formatted as exactly the
8 groups in minimum-digit lowercase hex joined by single colons: the
group list has 8 entries, every rendered group is non-empty and
colon-free (so no `::` can occur anywhere — no two adjacent characters
are both `:`), and an isolated zero group renders as `0`, never `::`. -/
theorem C6_no_run_no_compression (ip : List Nat) (hlen : ip.length = 16)
    (hbytes : ∀ b ∈ ip, b < 256) (h4 : to4 ip = none)
    (hno : ∀ g, g < 7 → ¬(zeroGroup ip g = true ∧ zeroGroup ip (g + 1) = true)) :
    IPString ip =
      String.intercalate ":" ((ipGroups ip).map fun v => String.mk (specHexChars v)) ∧
    (ipGroups ip).length = 8 ∧
    String.mk (specHexChars 0) = "0" ∧
    (∀ v ∈ ipGroups ip, specHexChars v ≠ [] ∧ ∀ c ∈ specHexChars v, c ≠ ':') ∧
    noDoubleColon (IPString ip).data := by
  have hfz : findZeroRun (zeroGroup ip) = (-1, -1) :=
    findZeroRun_of_none _ (runsGE2_no_adjacent _ hno)
  have hchars : (convertIPv6 ip).data = joinColon ((ipGroups ip).map specHexChars) := by
    rw [convertIPv6_chars_nomark ip hfz, ipGroups_map_hex ip hbytes]
  have hmain : IPString ip =
      String.intercalate ":" ((ipGroups ip).map fun v => String.mk (specHexChars v)) := by
    rw [IPString_eq_convertIPv6 ip hlen h4,
      show ((ipGroups ip).map fun v => String.mk (specHexChars v)) =
        ((ipGroups ip).map specHexChars).map String.mk from by rw [List.map_map]; rfl,
      intercalate_colon_mk]
    exact String.ext hchars
  refine ⟨hmain, by simp [ipGroups], rfl, fun v _ => ⟨specHexChars_ne_nil v, specHexChars_no_colon v⟩, ?_⟩
  show List.Chain' _ (IPString ip).data
  rw [IPString_eq_convertIPv6 ip hlen h4, hchars]
  apply joinColon_chain'
  intro g hg
  rw [List.mem_map] at hg
  obtain ⟨v, _, rfl⟩ := hg
  exact ⟨specHexChars_ne_nil v, specHexChars_no_colon v⟩

theorem C6_no_run_no_compression_witness :
    IPString [0, 1, 0, 0, 0, 3, 0, 4, 0, 5, 0, 6, 0, 7, 0, 8] = "1:0:3:4:5:6:7:8" := by
  have h := (C6_no_run_no_compression [0, 1, 0, 0, 0, 3, 0, 4, 0, 5, 0, 6, 0, 7, 0, 8]
    (by decide) (by decide) (by decide) (by decide)).1
  rw [h]
  rfl

/-! ## Claim C5: a unique zero run of length two or more is compressed -/

/-- Claim C5: a 16-byte address whose maximal runs of two or more
consecutive all-zero groups form exactly the single run of `l` groups
starting at group `s` (and which is not on the 4-byte path) is
formatted as the groups before the run joined by `:`, then `::`
replacing exactly the run, then the groups after the run joined by `:`;
every group is rendered in minimum-digit lowercase hex, non-empty and
colon-free.  (With a unique run of length at least two there are no
ties among compressible runs, and the finder — which prefers the
earliest among equally long runs — selects exactly this run.) -/
theorem C5_unique_run_compressed (ip : List Nat) (hlen : ip.length = 16)
    (hbytes : ∀ b ∈ ip, b < 256) (h4 : to4 ip = none) (s l : Nat)
    (hrun : runsGE2 (zeroGroup ip) = [(s, l)]) :
    IPString ip =
      String.intercalate ":" (((ipGroups ip).take s).map fun v => String.mk (specHexChars v))
        ++ "::" ++
      String.intercalate ":" (((ipGroups ip).drop (s + l)).map fun v => String.mk (specHexChars v)) ∧
    (∀ v ∈ ipGroups ip, specHexChars v ≠ [] ∧ ∀ c ∈ specHexChars v, c ≠ ':') := by
  obtain ⟨hs, hl, hsl⟩ := runsGE2_single_bounds _ s l hrun
  have hfz := findZeroRun_of_single _ s l hrun
  have hchars := convertIPv6_chars_marked ip s l hs hl hsl hfz
  have htake : ((ipGroups ip).take s).map specHexChars =
      (List.range s).map fun g => hexGroupChars ip g := by
    unfold ipGroups
    rw [List.map_take, List.map_map, ← List.map_take, List.take_range,
      show min s 8 = s from by omega]
    exact List.map_congr_left fun g _ => by
      simp only [Function.comp]
      exact (hexGroup_spec ip hbytes g).symm
  have hdrop : ((ipGroups ip).drop (s + l)).map specHexChars =
      (List.range (8 - (s + l))).map fun k => hexGroupChars ip (s + l + k) := by
    unfold ipGroups
    rw [List.map_drop, List.map_map, ← List.map_drop, drop_range, List.map_map]
    exact List.map_congr_left fun k _ => by
      simp only [Function.comp]
      exact (hexGroup_spec ip hbytes _).symm
  constructor
  · rw [IPString_eq_convertIPv6 ip hlen h4,
      show (((ipGroups ip).take s).map fun v => String.mk (specHexChars v)) =
        (((ipGroups ip).take s).map specHexChars).map String.mk from by rw [List.map_map]; rfl,
      show (((ipGroups ip).drop (s + l)).map fun v => String.mk (specHexChars v)) =
        (((ipGroups ip).drop (s + l)).map specHexChars).map String.mk from by
          rw [List.map_map]; rfl,
      intercalate_colon_mk, intercalate_colon_mk]
    apply String.ext
    rw [show (String.mk (joinColon (((ipGroups ip).take s).map specHexChars)) ++ "::" ++
        String.mk (joinColon (((ipGroups ip).drop (s + l)).map specHexChars))).data =
        joinColon (((ipGroups ip).take s).map specHexChars) ++ ':' :: ':' ::
          joinColon (((ipGroups ip).drop (s + l)).map specHexChars) from by
        simp]
    rw [hchars, htake, hdrop]
  · exact fun v _ => ⟨specHexChars_ne_nil v, specHexChars_no_colon v⟩

theorem C5_unique_run_compressed_witness :
    IPString [32, 1, 13, 184, 0, 0, 0, 0, 0, 0, 0, 0, 0, 0, 0, 1] = "2001:db8::1" := by
  have h := (C5_unique_run_compressed [32, 1, 13, 184, 0, 0, 0, 0, 0, 0, 0, 0, 0, 0, 0, 1]
    (by decide) (by decide) (by decide) 2 5 (by decide)).1
  rw [h]
  rfl
